import Mathlib

/-!
Shallow embedding of the evaluation harness of the HN-LoRA repository:
the result-ledger task loop of src/domains/LIBERO/evaluate.py and
src/octo/domains/LIBERO/evaluate.py, the vectorized rollout loop of
src/octo/domains/LIBERO/evaluate.py, the single-environment episode loop of
src/domains/LIBERO/evaluate.py, and the subtask-gated episode loop of
src/scripts/evaluate.py.
-/

namespace HNLoRA

/-- Ledger of per-task results: the in-memory python dict all_tasks_success_rate,
represented as an association list in insertion order. The entry type is kept
abstract (the two evaluate.py files store different entry shapes: a pair of
success rate and outcome list, or a bare success rate) since the skip gate and
the serialization only depend on the keys and on stored values as opaque data. -/
abbrev Ledger (α : Type) : Type := List (String × α)

variable {α : Type}

/-- Dict key lookup: models both the membership test (task_name in
all_tasks_success_rate) and reading the stored entry of a key. -/
def getEntry (k : String) : Ledger α → Option α
  | [] => none
  | (k2, v) :: rest => if k2 = k then some v else getEntry k rest

/-- Core of the per-task loop of the LIBERO evaluate functions
(src/domains/LIBERO/evaluate.py lines 66-129, src/octo/domains/LIBERO/evaluate.py
lines 69-197) restricted to the ledger: for each task in order, if task_name is
already a key of all_tasks_success_rate the task is skipped (continue), otherwise
the episodes run, producing an outcome entry, and the dict gains the new key at
the end (python dicts keep insertion order and the key is absent here, so the
assignment appends). The outcome of a task is abstracted as a function of the
task name, fixed for one run. -/
def runTasks (outcome : String → α) (ledger : Ledger α) : List String → Ledger α
  | [] => ledger
  | t :: ts =>
    if (getEntry t ledger).isSome then runTasks outcome ledger ts
    else runTasks outcome (ledger ++ [(t, outcome t)]) ts

theorem getEntry_append_of_some {k : String} {l1 l2 : Ledger α} {v : α}
    (h : getEntry k l1 = some v) : getEntry k (l1 ++ l2) = some v := by
  induction l1 with
  | nil => simp [getEntry] at h
  | cons p rest ih =>
    obtain ⟨k2, w⟩ := p
    by_cases hk : k2 = k
    · simpa [getEntry, hk] using by simpa [getEntry, hk] using h
    · simp only [getEntry, if_neg hk] at h ⊢
      exact ih h

theorem getEntry_append_of_none {k : String} {l1 : Ledger α} (l2 : Ledger α)
    (h : getEntry k l1 = none) : getEntry k (l1 ++ l2) = getEntry k l2 := by
  induction l1 with
  | nil => simp [getEntry]
  | cons p rest ih =>
    obtain ⟨k2, w⟩ := p
    by_cases hk : k2 = k
    · simp [getEntry, hk] at h
    · simp only [getEntry, if_neg hk] at h ⊢
      exact ih h

theorem getEntry_singleton_self (k : String) (v : α) :
    getEntry k [(k, v)] = some v := by
  simp [getEntry]

/-- A stored entry is never overwritten by the task loop: the ledger only grows
by appending keys that are absent. -/
theorem runTasks_preserves (f : String → α) {k : String} {v : α} :
    ∀ (T : List String) (L : Ledger α), getEntry k L = some v →
      getEntry k (runTasks f L T) = some v := by
  intro T
  induction T with
  | nil => intro L h; simpa [runTasks] using h
  | cons t ts ih =>
    intro L h
    by_cases hp : (getEntry t L).isSome = true
    · simpa [runTasks, hp] using ih L h
    · simp only [runTasks, hp, if_false, Bool.false_eq_true]
      exact ih _ (getEntry_append_of_some h)

/-- After a run, every task of the task list is a key of the ledger. -/
theorem runTasks_mem_isSome (f : String → α) {t : String} :
    ∀ (T : List String) (L : Ledger α), t ∈ T →
      (getEntry t (runTasks f L T)).isSome = true := by
  intro T
  induction T with
  | nil => intro L h; simp at h
  | cons t0 ts ih =>
    intro L h
    by_cases hp : (getEntry t0 L).isSome = true
    · simp only [runTasks, hp, if_true]
      rcases List.mem_cons.mp h with h0 | hmem
      · subst h0
        obtain ⟨v, hv⟩ := Option.isSome_iff_exists.mp hp
        have := runTasks_preserves f ts L hv
        simp [this]
      · exact ih L hmem
    · simp only [runTasks, hp, if_false, Bool.false_eq_true]
      rcases List.mem_cons.mp h with h0 | hmem
      · subst h0
        have hnone : getEntry t L = none := by
          cases hL : getEntry t L with
          | none => rfl
          | some w => rw [hL] at hp; simp at hp
        have hv : getEntry t (L ++ [(t, f t)]) = some (f t) := by
          rw [getEntry_append_of_none _ hnone]
          exact getEntry_singleton_self t (f t)
        have := runTasks_preserves f ts _ hv
        simp [this]
      · exact ih _ hmem

/-- A run over tasks that are all already keys of the ledger changes nothing. -/
theorem runTasks_skip_all (f : String → α) :
    ∀ (T : List String) (L : Ledger α),
      (∀ t ∈ T, (getEntry t L).isSome = true) → runTasks f L T = L := by
  intro T
  induction T with
  | nil => intro L _; rfl
  | cons t ts ih =>
    intro L h
    have ht : (getEntry t L).isSome = true := h t (List.mem_cons_self t ts)
    simp only [runTasks, ht, if_true]
    exact ih L fun u hu => h u (List.mem_cons_of_mem t hu)

/-- Claim C1: running the evaluation a second time over the ledger produced by a
completed first run yields the same ledger mapping (the skip-if-present gate of
lines 74-75 of src/domains/LIBERO/evaluate.py, lines 77-78 of
src/octo/domains/LIBERO/evaluate.py, is idempotent), and every task whose name
is already a key of the loaded ledger is skipped with its entry left unchanged. -/
theorem C1_skip_gate_idempotent (α : Type) (f g : String → α) (L : Ledger α)
    (T : List String) :
    runTasks g (runTasks f L T) T = runTasks f L T ∧
    ∀ t v, getEntry t L = some v → getEntry t (runTasks f L T) = some v := by
  constructor
  · exact runTasks_skip_all g T _ fun t ht => runTasks_mem_isSome f T L ht
  · intro t v h
    exact runTasks_preserves f T L h

/-- Witness for C1 at a concrete run: one task already recorded, one new. -/
theorem C1_skip_gate_idempotent_witness :
    runTasks (fun _ => (2 : Nat)) (runTasks (fun _ => 1) [("a", 7)] ["a", "b"]) ["a", "b"]
      = runTasks (fun _ => 1) [("a", 7)] ["a", "b"] ∧
    getEntry "a" (runTasks (fun _ => (1 : Nat)) [("a", 7)] ["a", "b"]) = some 7 :=
  ⟨(C1_skip_gate_idempotent Nat (fun _ => 1) (fun _ => 2) [("a", 7)] ["a", "b"]).1,
   (C1_skip_gate_idempotent Nat (fun _ => 1) (fun _ => 2) [("a", 7)] ["a", "b"]).2
     "a" 7 (by decide)⟩

/-- One iteration of the task loop together with the result file on disk
(src/domains/LIBERO/evaluate.py lines 66-129, write at lines 126-129;
src/octo/domains/LIBERO/evaluate.py lines 69-197, write at lines 194-197).
The state pairs the in-memory dict with the file content, none meaning the file
is absent. A present task is skipped, touching neither; otherwise the dict gains
the new entry and the whole mapping is immediately dumped to the file. -/
def processTask (outcome : String → α) (st : Ledger α × Option (Ledger α))
    (t : String) : Ledger α × Option (Ledger α) :=
  if (getEntry t st.1).isSome then st
  else
    let ledger := st.1 ++ [(t, outcome t)]
    (ledger, some ledger)

/-- The whole task loop threading ledger and file through processTask. -/
def runEval (outcome : String → α) (st : Ledger α × Option (Ledger α))
    (tasks : List String) : Ledger α × Option (Ledger α) :=
  tasks.foldl (processTask outcome) st

/-- Claim C6: in a run over tasks T1 then t then T2, the state the tasks of T2
start from is exactly the state right after task t; each task either leaves the
state untouched (skip) or ends with the file holding the whole updated mapping
(the dump of lines 126-129 resp. 194-197 happens before the next task starts);
and every entry recorded before task t is still present verbatim afterwards,
hence in the written file. -/
theorem C6_record_then_flush (α : Type) (f : String → α) (L : Ledger α)
    (fl : Option (Ledger α)) (t : String) (T1 T2 : List String) :
    runEval f (L, fl) (T1 ++ t :: T2)
        = runEval f (processTask f (runEval f (L, fl) T1) t) T2 ∧
    (processTask f (runEval f (L, fl) T1) t = runEval f (L, fl) T1 ∨
      (processTask f (runEval f (L, fl) T1) t).2
        = some (processTask f (runEval f (L, fl) T1) t).1) ∧
    (∀ k v, getEntry k (runEval f (L, fl) T1).1 = some v →
      getEntry k (processTask f (runEval f (L, fl) T1) t).1 = some v) := by
  refine ⟨?_, ?_, ?_⟩
  · simp [runEval, List.foldl_append]
  · by_cases hp : (getEntry t (runEval f (L, fl) T1).1).isSome = true
    · left; simp [processTask, hp]
    · right; simp [processTask, hp]
  · intro k v h
    by_cases hp : (getEntry t (runEval f (L, fl) T1).1).isSome = true
    · simpa [processTask, hp] using h
    · simp only [processTask, hp, if_false, Bool.false_eq_true]
      exact getEntry_append_of_some h

/-- Witness for C6 at a concrete run: one prior entry, one recorded task,
one task still to come. -/
theorem C6_record_then_flush_witness :
    runEval (fun _ => (1 : Nat)) ([("a", 7)], some [("a", 7)]) (["b"] ++ "c" :: ["d"])
        = runEval (fun _ => 1)
            (processTask (fun _ => 1)
              (runEval (fun _ => 1) ([("a", 7)], some [("a", 7)]) ["b"]) "c") ["d"] ∧
    getEntry "a"
        (processTask (fun _ => (1 : Nat))
          (runEval (fun _ => 1) ([("a", 7)], some [("a", 7)]) ["b"]) "c").1 = some 7 :=
  ⟨(C6_record_then_flush Nat (fun _ => 1) [("a", 7)] (some [("a", 7)]) "c" ["b"] ["d"]).1,
   (C6_record_then_flush Nat (fun _ => 1) [("a", 7)] (some [("a", 7)]) "c" ["b"] ["d"]).2.2
     "a" 7 (by decide)⟩

/-- Load of the result file, lines 46-50 of src/domains/LIBERO/evaluate.py and
lines 49-53 of src/octo/domains/LIBERO/evaluate.py: if the file exists its text
is handed to json.load, which raises JSONDecodeError on malformed content (the
call is not wrapped in any try block); if the file does not exist the mapping
starts as an empty dict. The file is abstracted by what json.load would do with
its content: none = file absent, some none = file present but malformed,
some (some l) = file present and parsing to the mapping l. -/
def loadLedger (α : Type) (file : Option (Option (Ledger α))) :
    Except String (Ledger α) :=
  match file with
  | none => Except.ok []
  | some none => Except.error "JSONDecodeError"
  | some (some l) => Except.ok l

/-- Counterexample to claim C7: a present but malformed result file is not
treated as no prior results; json.load raises, so the load is an error rather
than the empty mapping. -/
theorem C7_malformed_raises_cex :
    loadLedger Nat (some none) = Except.error "JSONDecodeError" ∧
    loadLedger Nat (some none) ≠ Except.ok [] :=
  ⟨rfl, fun h => by simp [loadLedger] at h⟩

/-- Claim C7 as amended: a missing result file is treated as no prior results
(empty mapping, no error) and a well-formed file loads its mapping, but a
malformed result file raises a JSON decode error instead of being treated as
empty. -/
theorem C7_load_amended (α : Type) :
    loadLedger α none = Except.ok [] ∧
    (∀ l, loadLedger α (some (some l)) = Except.ok l) ∧
    loadLedger α (some none) = Except.error "JSONDecodeError" :=
  ⟨rfl, fun _ => rfl, rfl⟩

/-- Per-rollout mutable state of the vectorized loop of
src/octo/domains/LIBERO/evaluate.py lines 161-163: the python lists
finished_tasks and episode_length, modelled as functions from the slot index. -/
structure RolloutState where
  finished : Nat → Bool
  episode_length : Nat → Nat

/-- Step budget of the vectorized rollout, line 162: max_step = 600. -/
def max_step : Nat := 600

/-- One pass of the inner update loop, lines 174-177: for k in range(env_num),
if dones[k] then finished_tasks[k] = True and
episode_length[k] = min(step + 1, episode_length[k]). -/
def applyDones (n : Nat) (dones : Nat → Bool) (step : Nat) (st : RolloutState) :
    RolloutState where
  finished := fun k => if k < n ∧ dones k = true then true else st.finished k
  episode_length := fun k =>
    if k < n ∧ dones k = true then min (step + 1) (st.episode_length k)
    else st.episode_length k

/-- The early-exit test of line 178: all(finished_tasks). -/
def allFinished (n : Nat) (fin : Nat → Bool) : Bool := (List.range n).all fin

/-- Initial rollout state, lines 161-163: finished_tasks = [False] * env_num and
episode_length = [max_step] * env_num. -/
def initRollout : RolloutState where
  finished := fun _ => false
  episode_length := fun _ => max_step

/-- State of the rollout after the done-updates of the first t loop steps have
been applied, regardless of the early exit (the executed loop states are exactly
these, for t up to the exit step). The per-step dones returned by env.step are
abstracted as an oracle d indexed by step and slot. -/
def iterRollout (n : Nat) (d : Nat → Nat → Bool) : Nat → RolloutState
  | 0 => initRollout
  | t + 1 => applyDones n (d t) t (iterRollout n d t)

/-- The outer loop of lines 165-181 from a given step index with the given fuel
(remaining iterations), returning the final state together with the number of
iterations actually executed; the break of lines 178-179 fires right after the
done-updates when all slots are finished. -/
def rolloutFrom (n : Nat) (d : Nat → Nat → Bool) :
    Nat → Nat → RolloutState → RolloutState × Nat
  | 0, _, st => (st, 0)
  | fuel + 1, step, st =>
    let st2 := applyDones n (d step) step st
    if allFinished n st2.finished = true then (st2, 1)
    else
      let r := rolloutFrom n d fuel (step + 1) st2
      (r.1, r.2 + 1)

/-- The whole vectorized rollout: for step in range(max_step) starting from the
initial state. -/
def runRollout (n : Nat) (d : Nat → Nat → Bool) : RolloutState × Nat :=
  rolloutFrom n d max_step 0 initRollout

theorem rolloutFrom_spec (n : Nat) (d : Nat → Nat → Bool) :
    ∀ (fuel s : Nat),
      (rolloutFrom n d fuel s (iterRollout n d s)).2 ≤ fuel ∧
      (rolloutFrom n d fuel s (iterRollout n d s)).1
        = iterRollout n d (s + (rolloutFrom n d fuel s (iterRollout n d s)).2) ∧
      (∀ t, s < t → t < s + (rolloutFrom n d fuel s (iterRollout n d s)).2 →
        allFinished n ((iterRollout n d t).finished) = false) ∧
      ((rolloutFrom n d fuel s (iterRollout n d s)).2 < fuel →
        allFinished n ((rolloutFrom n d fuel s (iterRollout n d s)).1).finished
          = true) := by
  intro fuel
  induction fuel with
  | zero =>
    intro s
    refine ⟨Nat.le_refl _, by simp [rolloutFrom], ?_, ?_⟩
    · intro t hst ht
      simp only [rolloutFrom] at ht
      omega
    · intro h
      simp [rolloutFrom] at h
  | succ fuel ih =>
    intro s
    have hst2 : applyDones n (d s) s (iterRollout n d s) = iterRollout n d (s + 1) := rfl
    by_cases hall : allFinished n ((iterRollout n d (s + 1)).finished) = true
    · have hr1 : (rolloutFrom n d (fuel + 1) s (iterRollout n d s)).1
          = iterRollout n d (s + 1) := by
        simp [rolloutFrom, hst2, hall]
      have hr2 : (rolloutFrom n d (fuel + 1) s (iterRollout n d s)).2 = 1 := by
        simp [rolloutFrom, hst2, hall]
      refine ⟨?_, ?_, ?_, ?_⟩
      · rw [hr2]; omega
      · rw [hr1, hr2]
      · intro t hst ht; rw [hr2] at ht; omega
      · intro _; rw [hr1]; exact hall
    · have hr1 : (rolloutFrom n d (fuel + 1) s (iterRollout n d s)).1
          = (rolloutFrom n d fuel (s + 1) (iterRollout n d (s + 1))).1 := by
        simp [rolloutFrom, hst2, hall]
      have hr2 : (rolloutFrom n d (fuel + 1) s (iterRollout n d s)).2
          = (rolloutFrom n d fuel (s + 1) (iterRollout n d (s + 1))).2 + 1 := by
        simp [rolloutFrom, hst2, hall]
      obtain ⟨ih1, ih2, ih3, ih4⟩ := ih (s + 1)
      refine ⟨?_, ?_, ?_, ?_⟩
      · rw [hr2]; omega
      · rw [hr1, hr2, ih2]; congr 1; omega
      · intro t hst ht
        rw [hr2] at ht
        rcases Nat.lt_or_ge t (s + 2) with hlt | hge
        · have ht1 : t = s + 1 := by omega
          rw [ht1]
          simpa using hall
        · exact ih3 t (by omega) (by omega)
      · intro hlt
        rw [hr1]
        rw [hr2] at hlt
        exact ih4 (by omega)

/-- Slots whose done oracle never fires keep the initial finished flag and the
initial budget-valued episode length at every iteration. -/
theorem iterRollout_never_done (n : Nat) (d : Nat → Nat → Bool) (i T : Nat)
    (h : ∀ t, t < T → d t i = false) :
    ∀ u, u ≤ T → (iterRollout n d u).finished i = false ∧
      (iterRollout n d u).episode_length i = max_step := by
  intro u
  induction u with
  | zero => intro _; exact ⟨rfl, rfl⟩
  | succ u ihu =>
    intro hu
    have hd : d u i = false := h u (by omega)
    have hcond : ¬(i < n ∧ d u i = true) := by
      intro hc; rw [hd] at hc; exact absurd hc.2 (by simp)
    obtain ⟨h1, h2⟩ := ihu (by omega)
    constructor
    · show (applyDones n (d u) u (iterRollout n d u)).finished i = false
      simp only [applyDones]
      rw [if_neg hcond]
      exact h1
    · show (applyDones n (d u) u (iterRollout n d u)).episode_length i = max_step
      simp only [applyDones]
      rw [if_neg hcond]
      exact h2

/-- Claim C3: the vectorized rollout executes at most 600 iterations, its final
state is the iterated state at the executed count, no strictly earlier iteration
already had all slots finished (it stops as soon as they are), stopping short of
the budget means all slots are finished, and a slot whose env never reports done
within the budget ends unfinished (a failure) with episode_length equal to the
600-step budget. -/
theorem C3_rollout_termination (n : Nat) (d : Nat → Nat → Bool) :
    (runRollout n d).2 ≤ 600 ∧
    (runRollout n d).1 = iterRollout n d (runRollout n d).2 ∧
    (∀ t, 0 < t → t < (runRollout n d).2 →
      allFinished n ((iterRollout n d t).finished) = false) ∧
    ((runRollout n d).2 < 600 →
      allFinished n (((runRollout n d).1).finished) = true) ∧
    (∀ i, i < n → (∀ t, t < 600 → d t i = false) →
      ((runRollout n d).1).finished i = false ∧
      ((runRollout n d).1).episode_length i = 600) := by
  have h0 : iterRollout n d 0 = initRollout := rfl
  have hrun : runRollout n d = rolloutFrom n d max_step 0 (iterRollout n d 0) := rfl
  obtain ⟨h1, h2, h3, h4⟩ := rolloutFrom_spec n d max_step 0
  rw [hrun]
  refine ⟨h1, by simpa using h2, ?_, h4, ?_⟩
  · intro t ht1 ht2
    exact h3 t ht1 (by omega)
  · intro i _ hnever
    have hle : (rolloutFrom n d max_step 0 (iterRollout n d 0)).2 ≤ 600 := h1
    have := iterRollout_never_done n d i 600 hnever
      (0 + (rolloutFrom n d max_step 0 (iterRollout n d 0)).2) (by omega)
    rw [h2]
    exact this

/-- Done oracle for concrete checks: slot 0 reports done at step 1, slot 1 never. -/
def dEx : Nat → Nat → Bool := fun t k => k == 0 && t == 1

/-- Witness for C3: with two slots and slot 1 never done, slot 1 is recorded as
a failure with episode_length 600. -/
theorem C3_rollout_termination_witness :
    ((runRollout 2 dEx).1).finished 1 = false ∧
    ((runRollout 2 dEx).1).episode_length 1 = 600 :=
  (C3_rollout_termination 2 dEx).2.2.2.2 1 (by decide) (fun _ _ => rfl)

/-- A finished slot has an episode length of at most the iteration count: the
length was set by min (step + 1) at some earlier step. -/
theorem epLen_le_of_finished (n : Nat) (d : Nat → Nat → Bool) (i : Nat) :
    ∀ t, (iterRollout n d t).finished i = true →
      (iterRollout n d t).episode_length i ≤ t := by
  intro t
  induction t with
  | zero =>
    intro h
    exact absurd h (by simp [iterRollout, initRollout])
  | succ t iht =>
    intro h
    by_cases hc : i < n ∧ d t i = true
    · show (applyDones n (d t) t (iterRollout n d t)).episode_length i ≤ t + 1
      simp only [applyDones]
      rw [if_pos hc]
      exact min_le_left _ _
    · have hfin : (iterRollout n d t).finished i = true := by
        have hy : (applyDones n (d t) t (iterRollout n d t)).finished i = true := h
        simp only [applyDones] at hy
        rw [if_neg hc] at hy
        exact hy
      show (applyDones n (d t) t (iterRollout n d t)).episode_length i ≤ t + 1
      simp only [applyDones]
      rw [if_neg hc]
      exact (iht hfin).trans (by omega)

/-- One rollout step never unfreezes a finished slot: the flag stays true and
the recorded episode length is unchanged. -/
theorem iterRollout_freeze (n : Nat) (d : Nat → Nat → Bool) (i t : Nat)
    (h : (iterRollout n d t).finished i = true) :
    (iterRollout n d (t + 1)).finished i = true ∧
    (iterRollout n d (t + 1)).episode_length i
      = (iterRollout n d t).episode_length i := by
  by_cases hc : i < n ∧ d t i = true
  · constructor
    · show (applyDones n (d t) t (iterRollout n d t)).finished i = true
      simp only [applyDones]
      rw [if_pos hc]
    · show (applyDones n (d t) t (iterRollout n d t)).episode_length i
          = (iterRollout n d t).episode_length i
      simp only [applyDones]
      rw [if_pos hc]
      exact Nat.min_eq_right ((epLen_le_of_finished n d i t h).trans (by omega))
  · constructor
    · show (applyDones n (d t) t (iterRollout n d t)).finished i = true
      simp only [applyDones]
      rw [if_neg hc]
      exact h
    · show (applyDones n (d t) t (iterRollout n d t)).episode_length i
          = (iterRollout n d t).episode_length i
      simp only [applyDones]
      rw [if_neg hc]

/-- Once a slot is finished, every later iteration keeps the flag and the
recorded episode length. -/
theorem iterRollout_frozen (n : Nat) (d : Nat → Nat → Bool) (i s : Nat)
    (h : (iterRollout n d (s + 1)).finished i = true) :
    ∀ t, s + 1 ≤ t → (iterRollout n d t).finished i = true ∧
      (iterRollout n d t).episode_length i
        = (iterRollout n d (s + 1)).episode_length i := by
  intro t
  induction t with
  | zero => intro ht; omega
  | succ t iht =>
    intro ht
    rcases Nat.lt_or_ge (s + 1) (t + 1) with hlt | hge
    · obtain ⟨f1, f2⟩ := iht (by omega)
      obtain ⟨g1, g2⟩ := iterRollout_freeze n d i t f1
      exact ⟨g1, by rw [g2, f2]⟩
    · have hts : t + 1 = s + 1 := by omega
      rw [hts]
      exact ⟨h, rfl⟩

/-- Claim C2: once slot i of the vectorized rollout reports done at step s, it
is finished at every later iteration, with no transition out of the finished
state, and its recorded episode_length is frozen at
min (s + 1) (previous length) and never changes on any later step. -/
theorem C2_slot_freezing (n : Nat) (d : Nat → Nat → Bool) (i s : Nat)
    (hi : i < n) (hd : d s i = true) :
    ∀ t, s < t → (iterRollout n d t).finished i = true ∧
      (iterRollout n d t).episode_length i
        = min (s + 1) ((iterRollout n d s).episode_length i) := by
  have hc : i < n ∧ d s i = true := ⟨hi, hd⟩
  have h1 : (iterRollout n d (s + 1)).finished i = true := by
    show (applyDones n (d s) s (iterRollout n d s)).finished i = true
    simp only [applyDones]
    rw [if_pos hc]
  have h2 : (iterRollout n d (s + 1)).episode_length i
      = min (s + 1) ((iterRollout n d s).episode_length i) := by
    show (applyDones n (d s) s (iterRollout n d s)).episode_length i
        = min (s + 1) ((iterRollout n d s).episode_length i)
    simp only [applyDones]
    rw [if_pos hc]
  intro t ht
  obtain ⟨f1, f2⟩ := iterRollout_frozen n d i s h1 t (by omega)
  exact ⟨f1, by rw [f2, h2]⟩

/-- Witness for C2: slot 0 reports done at step 1; at iteration 3 it is still
finished with the frozen length. -/
theorem C2_slot_freezing_witness :
    (iterRollout 2 dEx 3).finished 0 = true ∧
    (iterRollout 2 dEx 3).episode_length 0
      = min 2 ((iterRollout 2 dEx 1).episode_length 0) :=
  C2_slot_freezing 2 dEx 0 1 (by decide) (by decide) 3 (by decide)

/-- Episode lengths stay between 1 and the step budget at every iteration:
they start at max_step and are only ever lowered to min (step + 1) of the
previous value. -/
theorem epLen_bounds (n : Nat) (d : Nat → Nat → Bool) (i : Nat) :
    ∀ t, 1 ≤ (iterRollout n d t).episode_length i ∧
      (iterRollout n d t).episode_length i ≤ max_step := by
  intro t
  induction t with
  | zero => exact ⟨show (1 : Nat) ≤ max_step by decide, Nat.le_refl _⟩
  | succ t iht =>
    by_cases hc : i < n ∧ d t i = true
    · constructor
      · show 1 ≤ (applyDones n (d t) t (iterRollout n d t)).episode_length i
        simp only [applyDones]
        rw [if_pos hc]
        exact Nat.le_min.mpr ⟨by omega, iht.1⟩
      · show (applyDones n (d t) t (iterRollout n d t)).episode_length i ≤ max_step
        simp only [applyDones]
        rw [if_pos hc]
        exact (min_le_right _ _).trans iht.2
    · constructor
      · show 1 ≤ (applyDones n (d t) t (iterRollout n d t)).episode_length i
        simp only [applyDones]
        rw [if_neg hc]
        exact iht.1
      · show (applyDones n (d t) t (iterRollout n d t)).episode_length i ≤ max_step
        simp only [applyDones]
        rw [if_neg hc]
        exact iht.2

/-- Number of finished slots, line 183: sum(finished_tasks). -/
def countFinished (n : Nat) (fin : Nat → Bool) : Nat :=
  (List.range n).countP (fun k => fin k)

/-- Recorded success rate of a rollout, line 183:
sum(finished_tasks) / env_num as an exact rational. -/
def successRate (n : Nat) (st : RolloutState) : ℚ :=
  (countFinished n st.finished : ℚ) / (n : ℚ)

theorem countFinished_le (n : Nat) (fin : Nat → Bool) :
    countFinished n fin ≤ n := by
  have h := List.countP_le_length (p := fun k => fin k) (l := List.range n)
  simpa using h

/-- Claim C10: at every iteration of the vectorized rollout every slot has
1 <= episode_length <= 600, and for a positive slot count the recorded success
rate lies in the interval from 0 to 1. -/
theorem C10_length_and_rate_bounds (n : Nat) (d : Nat → Nat → Bool) :
    (∀ t i, i < n → 1 ≤ (iterRollout n d t).episode_length i ∧
      (iterRollout n d t).episode_length i ≤ 600) ∧
    (0 < n → 0 ≤ successRate n (runRollout n d).1 ∧
      successRate n (runRollout n d).1 ≤ 1) := by
  constructor
  · intro t i _
    exact epLen_bounds n d i t
  · intro _
    constructor
    · exact div_nonneg (Nat.cast_nonneg _) (Nat.cast_nonneg _)
    · exact div_le_one_of_le₀ (Nat.cast_le.mpr (countFinished_le _ _))
        (Nat.cast_nonneg _)

/-- Witness for C10 at a one-slot rollout. -/
theorem C10_length_and_rate_bounds_witness :
    (1 ≤ (iterRollout 1 dEx 0).episode_length 0 ∧
      (iterRollout 1 dEx 0).episode_length 0 ≤ 600) ∧
    (0 ≤ successRate 1 (runRollout 1 dEx).1 ∧
      successRate 1 (runRollout 1 dEx).1 ≤ 1) :=
  ⟨(C10_length_and_rate_bounds 1 dEx).1 0 0 (by decide),
   (C10_length_and_rate_bounds 1 dEx).2 (by decide)⟩

/-- Inner loop of the single-environment episode driver,
src/domains/LIBERO/evaluate.py lines 104-117: for t in range(600), env.step
returns a reward and a done flag (abstracted as oracles of the step index, the
reward over exact rationals since only its sign is ever used), the python
variables reward and done are reassigned on every iteration, and the loop
breaks at the first done. The pair carried along is the current value of
(reward, done); the initial pair holds the pre-loop done = False. -/
def singleLoop (rew : Nat → ℚ) (dn : Nat → Bool) :
    Nat → Nat → ℚ × Bool → ℚ × Bool
  | 0, _, st => st
  | fuel + 1, t, _ =>
    let st2 := (rew t, dn t)
    if dn t then st2 else singleLoop rew dn fuel (t + 1) st2

/-- The whole 600-iteration episode loop from step 0. -/
def runSingle (rew : Nat → ℚ) (dn : Nat → Bool) : ℚ × Bool :=
  singleLoop rew dn 600 0 (0, false)

/-- Line 117: success = (reward > 0), read after the loop exits. -/
def singleSuccess (rew : Nat → ℚ) (dn : Nat → Bool) : Bool :=
  decide (0 < (runSingle rew dn).1)

/-- First-done search from step t with the given remaining iteration count,
returning the step after the last checked one when no done fires. -/
def exitFrom (dn : Nat → Bool) : Nat → Nat → Nat
  | 0, t => t
  | fuel + 1, t => if dn t then t else exitFrom dn fuel (t + 1)

/-- The loop-exit step of the single-environment driver: the first step within
the 600-step budget at which the environment reports done, and the final budget
step 599 when it never does. -/
def exitStep (dn : Nat → Bool) : Nat :=
  match (List.range 600).find? (fun t => dn t) with
  | some t => t
  | none => 599

theorem singleLoop_exit (rew : Nat → ℚ) (dn : Nat → Bool) :
    ∀ (fuel t : Nat) (st : ℚ × Bool),
      singleLoop rew dn (fuel + 1) t st
        = (rew (exitFrom dn fuel t), dn (exitFrom dn fuel t)) := by
  intro fuel
  induction fuel with
  | zero =>
    intro t st
    by_cases h : dn t = true <;> simp [singleLoop, exitFrom, h]
  | succ fuel ih =>
    intro t st
    by_cases h : dn t = true
    · simp [singleLoop, exitFrom, h]
    · simp only [singleLoop, exitFrom, h, if_false, Bool.false_eq_true]
      exact ih (t + 1) (rew t, dn t)

theorem find?_append_of_some {β : Type} {p : β → Bool} {l1 : List β} {a : β}
    (l2 : List β) (h : l1.find? p = some a) : (l1 ++ l2).find? p = some a := by
  induction l1 with
  | nil => simp at h
  | cons x xs ih =>
    by_cases hx : p x = true
    · rw [List.find?_cons_of_pos _ hx] at h
      rw [List.cons_append, List.find?_cons_of_pos _ hx]
      exact h
    · rw [List.find?_cons_of_neg _ (by simpa using hx)] at h
      rw [List.cons_append, List.find?_cons_of_neg _ (by simpa using hx)]
      exact ih h

theorem find?_append_of_none {β : Type} {p : β → Bool} {l1 : List β}
    (l2 : List β) (h : l1.find? p = none) : (l1 ++ l2).find? p = l2.find? p := by
  induction l1 with
  | nil => simp
  | cons x xs ih =>
    by_cases hx : p x = true
    · rw [List.find?_cons_of_pos _ hx] at h
      simp at h
    · rw [List.find?_cons_of_neg _ (by simpa using hx)] at h
      rw [List.cons_append, List.find?_cons_of_neg _ (by simpa using hx)]
      exact ih h

theorem exitFrom_eq_find? (dn : Nat → Bool) :
    ∀ (fuel t : Nat),
      exitFrom dn fuel t
        = match (List.range' t fuel).find? (fun u => dn u) with
          | some u => u
          | none => t + fuel := by
  intro fuel
  induction fuel with
  | zero => intro t; simp [exitFrom]
  | succ fuel ih =>
    intro t
    rw [List.range'_succ]
    by_cases h : dn t = true
    · rw [List.find?_cons_of_pos _ (by simpa using h)]
      simp [exitFrom, h]
    · rw [List.find?_cons_of_neg _ (by simpa using h)]
      simp only [exitFrom, h, if_false, Bool.false_eq_true]
      rw [ih (t + 1)]
      cases hf : (List.range' (t + 1) fuel).find? (fun u => dn u) with
      | none => show t + 1 + fuel = t + (fuel + 1); omega
      | some u => rfl

theorem exitFrom_599_eq_exitStep (dn : Nat → Bool) :
    exitFrom dn 599 0 = exitStep dn := by
  rw [exitFrom_eq_find? dn 599 0, exitStep]
  have hsplit : List.range 600 = List.range 599 ++ [599] := List.range_succ 599
  have hr : List.range 599 = List.range' 0 599 := List.range_eq_range' 599
  cases hf : (List.range' 0 599).find? (fun u => dn u) with
  | some u =>
    rw [hsplit, hr, find?_append_of_some [599] hf]
  | none =>
    rw [hsplit, hr, find?_append_of_none [599] hf]
    by_cases h599 : dn 599 = true <;> simp [List.find?, h599]

/-- Claim C8: in the single-environment episode driver, the recorded success is
true exactly when the reward observed at the loop-exit step (the first done
step, or step 599 when the 600-step budget runs out first) is strictly
positive. -/
theorem C8_success_iff_positive_terminal_reward (rew : Nat → ℚ) (dn : Nat → Bool) :
    singleSuccess rew dn = true ↔ 0 < rew (exitStep dn) := by
  have hrun : runSingle rew dn = (rew (exitStep dn), dn (exitStep dn)) := by
    rw [runSingle]
    have h600 : (600 : Nat) = 599 + 1 := rfl
    rw [h600, singleLoop_exit rew dn 599 0 (0, false), exitFrom_599_eq_exitStep]
  rw [singleSuccess, hrun]
  exact decide_eq_true_iff

/-- Done and reward oracles for the concrete C8 check: done first fires at
step 2 and the reward is positive exactly there. -/
def dnEx : Nat → Bool := fun t => t == 2

def rewEx : Nat → ℚ := fun t => if t == 2 then 1 else 0

set_option maxRecDepth 4000 in
/-- Witness for C8: with done at step 2 and reward 1 there, the episode is
recorded as a success. -/
theorem C8_success_iff_positive_terminal_reward_witness :
    singleSuccess rewEx dnEx = true :=
  (C8_success_iff_positive_terminal_reward rewEx dnEx).mpr (by decide)

/-- External interface of the SimplerEnv environment as driven by the episode
loop of src/scripts/evaluate.py: advance models env.advance_to_next_subtask
(a mutation of the environment state), stepEnv models env.step, returning the
new environment state together with the success and truncated flags, instr
models env.get_language_instruction and final models env.is_final_subtask. -/
structure SimplerEnvIface (σ : Type) where
  advance : σ → σ
  stepEnv : σ → σ × Bool × Bool
  instr : σ → String
  final : σ → Bool

/-- Python local state of one episode in the loop of lines 103-142 of
src/scripts/evaluate.py. -/
structure EpState (σ : Type) where
  env : σ
  instruction : String
  isFinal : Bool
  success : Bool
  truncated : Bool
  timestep : Nat

variable {σ : Type}

/-- One body of the while loop of lines 119-142 of src/scripts/evaluate.py,
with term the terminate prediction of this step (lines 121-122,
action terminate_episode > 0): when terminate is predicted on a non-final
subtask, predicted_terminated is cleared and env.advance_to_next_subtask runs
(lines 123-127); env.step then advances the environment and yields success and
truncated (lines 129-131); the instruction is refreshed when it changed
(lines 133-137); is_final_subtask is re-read (line 138); timestep increments
(line 142). The cleared predicted_terminated variable is never read after the
gate, so it is not part of the state. -/
def bodyStep (E : SimplerEnvIface σ) (term : Bool) (st : EpState σ) :
    EpState σ :=
  let env1 := if term && !st.isFinal then E.advance st.env else st.env
  let r := E.stepEnv env1
  let newInstr := E.instr r.1
  { env := r.1
    instruction := if newInstr ≠ st.instruction then newInstr else st.instruction
    isFinal := E.final r.1
    success := r.2.1
    truncated := r.2.2
    timestep := st.timestep + 1 }

/-- The while loop of line 119: while not (truncated or success), iterating
bodyStep, with the policy terminate predictions abstracted as an oracle over
the step count and a fuel bound on the iterations considered. -/
def episodeWhile (E : SimplerEnvIface σ) (term : Nat → Bool) :
    Nat → EpState σ → EpState σ
  | 0, st => st
  | fuel + 1, st =>
    if st.truncated || st.success then st
    else episodeWhile E term fuel (bodyStep E (term st.timestep) st)

/-- Claim C4: on a step whose current subtask is not final, a predicted
terminate signal never ends the episode: the loop body with the terminate
signal is exactly the loop body without it applied to the environment advanced
to the next subtask, and for a running state the while loop keeps stepping
through the body. -/
theorem C4_terminate_gated_advances (σ : Type) (E : SimplerEnvIface σ)
    (term : Nat → Bool) (fuel : Nat) (st : EpState σ)
    (hf : st.isFinal = false) :
    bodyStep E true st = bodyStep E false { st with env := E.advance st.env } ∧
    (st.success = false → st.truncated = false →
      episodeWhile E term (fuel + 1) st
        = episodeWhile E term fuel (bodyStep E (term st.timestep) st)) := by
  constructor
  · simp [bodyStep, hf]
  · intro hs ht
    simp [episodeWhile, hs, ht]

/-- Environment and state for the concrete C4 check: never final, env.step
never reports success or truncated. -/
def EnvC4 : SimplerEnvIface Nat :=
  ⟨fun s => s + 100, fun s => (s + 1, false, false), fun _ => "go", fun _ => false⟩

def stC4 : EpState Nat := ⟨0, "go", false, false, false, 0⟩

/-- Witness for C4 at a concrete non-final running state. -/
theorem C4_terminate_gated_advances_witness :
    bodyStep EnvC4 true stC4
      = bodyStep EnvC4 false { stC4 with env := EnvC4.advance stC4.env } ∧
    episodeWhile EnvC4 (fun _ => true) 1 stC4
      = episodeWhile EnvC4 (fun _ => true) 0 (bodyStep EnvC4 true stC4) :=
  ⟨(C4_terminate_gated_advances Nat EnvC4 (fun _ => true) 0 stC4 rfl).1,
   (C4_terminate_gated_advances Nat EnvC4 (fun _ => true) 0 stC4 rfl).2 rfl rfl⟩

/-- Environment and state for the C5 counterexample: the subtask is final, the
policy predicts terminate from the very first step, and env.step never reports
success or truncated. -/
def EnvC5 : SimplerEnvIface Nat :=
  ⟨fun s => s + 100, fun s => (s + 1, false, false), fun _ => "go", fun _ => true⟩

def stC5 : EpState Nat := ⟨0, "go", true, false, false, 0⟩

/-- Counterexample to claim C5: with is_final_subtask true and the policy
predicting terminate at every step, the episode does not transition to a
finished state and the stepping loop does not end: after the predicted-
terminate step the state is still neither success nor truncated, and the loop
keeps stepping (two iterations of budget yield two executed steps, where the
claim says stepping ends at the first). The loop condition of line 119 reads
only truncated and success, never predicted_terminated. -/
theorem C5_predicted_terminate_ignored_cex :
    stC5.isFinal = true ∧
    (bodyStep EnvC5 true stC5).success = false ∧
    (bodyStep EnvC5 true stC5).truncated = false ∧
    (episodeWhile EnvC5 (fun _ => true) 2 stC5).timestep = 2 :=
  ⟨rfl, rfl, rfl, rfl⟩

/-- Claim C5 as amended: when is_final_subtask is true a predicted terminate
signal has no effect at all on the loop body, so the episode leaves the running
state only when env.step reports success or truncated, not when the policy
predicts termination. -/
theorem C5_terminate_noop_when_final (σ : Type) (E : SimplerEnvIface σ)
    (st : EpState σ) (b : Bool) (hf : st.isFinal = true) :
    bodyStep E b st = bodyStep E false st := by
  simp [bodyStep, hf]

/-- Witness for the amended C5 at a concrete final-subtask state. -/
theorem C5_terminate_noop_when_final_witness :
    bodyStep EnvC5 true stC5 = bodyStep EnvC5 false stC5 :=
  C5_terminate_noop_when_final Nat EnvC5 stC5 true rfl

/-- Task selection of the LIBERO evaluate functions,
src/domains/LIBERO/evaluate.py lines 58-64 and
src/octo/domains/LIBERO/evaluate.py lines 61-67: the tasks parameter of
evaluate is rebound to the train or test task list unpickled from
task_split.pkl before its first use, and the chosen list is mapped to suite
indices by stripping the 10-character split suffix (task_name[:-10]) and
looking the name up in all_task_names (list.index, modelled by List.indexOf). -/
def selectTaskIds (tasks : List String) (split : String)
    (train_tasks test_tasks all_task_names : List String) : List Nat :=
  let tasks := if split = "train" then train_tasks else test_tasks
  tasks.map (fun name => all_task_names.indexOf (name.take (name.length - 10)))

/-- Claim C9: the tasks argument passed to the LIBERO evaluate functions is
ignored: whatever caller-supplied task lists are given, the evaluated task ids
are identical, determined only by the split selector and the pickled split
lists. -/
theorem C9_tasks_argument_ignored (tasks1 tasks2 : List String) (split : String)
    (train_tasks test_tasks all_task_names : List String) :
    selectTaskIds tasks1 split train_tasks test_tasks all_task_names
      = selectTaskIds tasks2 split train_tasks test_tasks all_task_names := rfl

end HNLoRA
